import Mathlib

/-!
Verification development for the kvraft layer of a replicated key-value
store (files `src/dss/raft/src/kvraft/server.rs` and
`src/dss/raft/src/kvraft/client.rs`).

Modelling conventions of the shallow embedding:
* `BTreeMap<String, String>` and `HashMap<String, Uuid>` are modelled as
  association lists with `mapGet` / `mapInsert`; `mapInsert` replaces the
  entry for an existing key in place and appends new keys at the end,
  which matches the lookup/insert semantics of the Rust maps.
* the 16-byte `Uuid` is modelled abstractly as a `Nat`; `build_uuid`
  (which only re-parses the same bytes) is absorbed into this abstraction.
* protobuf `encode`/`decode` of the external `labcodec` library is
  abstracted structurally: a wire payload is the decoded message itself,
  carried by the `Payload` sum (with a `garbage` case for undecodable
  bytes).
* a Rust `panic!` / failed `assert!` / `expect` is modelled by returning
  `none` from the function that panics.
* the oneshot waiter channels are modelled by the set of registered
  indices (`waiting`) together with the `Option CommandResponse` a call
  to `notify_at` delivers.
-/

namespace KvRaft

/-- Uuid request identifiers, abstracted from the 16-byte value. -/
abbrev Uuid := Nat

/-- lookup in an association-list map (model of `BTreeMap`/`HashMap` get). -/
def mapGet {σ : Type} : List (String × σ) → String → Option σ
  | [], _ => none
  | (k', v) :: rest, k => if k' = k then some v else mapGet rest k

/-- insert in an association-list map (model of `BTreeMap`/`HashMap` insert):
replaces in place when the key is present, appends otherwise. -/
def mapInsert {σ : Type} : List (String × σ) → String → σ → List (String × σ)
  | [], k, v => [(k, v)]
  | (k', v') :: rest, k, v =>
    if k' = k then (k, v) :: rest else (k', v') :: mapInsert rest k v

/-- fold `mapInsert` over a list of pairs, the shape of both branches of
`handle_virtual_command`. -/
def insertAll {σ : Type} (m : List (String × σ)) (l : List (String × σ)) :
    List (String × σ) :=
  l.foldl (fun acc p => mapInsert acc p.1 p.2) m

/-- the `KvCommand` enum of `server.rs`. -/
inductive KvCommand
  | get (id : Uuid) (key client : String)
  | put (id : Uuid) (key value client : String)
  | append (id : Uuid) (key value client : String)
deriving DecidableEq

/-- `KvCommand::get_id`. -/
def KvCommand.getId : KvCommand → Uuid
  | .get id _ _ => id
  | .put id _ _ _ => id
  | .append id _ _ _ => id

/-- `KvCommand::get_client`. -/
def KvCommand.getClient : KvCommand → String
  | .get _ _ client => client
  | .put _ _ _ client => client
  | .append _ _ _ client => client

/-- the `Command::is_readonly` impl for `KvCommand`. -/
def KvCommand.is_readonly : KvCommand → Bool
  | .get _ _ _ => true
  | .put _ _ _ _ => false
  | .append _ _ _ _ => false

/-- the wire message `PutAppendRequest` (`op` is the protobuf i32 tag). -/
structure PutAppendRequest where
  id : Uuid
  key : String
  value : String
  op : Int
  client : String
deriving DecidableEq

/-- the wire message `GetRequest`. -/
structure GetRequest where
  id : Uuid
  key : String
  client : String
deriving DecidableEq

/-- `KvCommand::from_put_append`: `Op::from_i32(op).unwrap_or(Op::Unknown)`
panics on `Op::Unknown`, i.e. on every `op` other than 1 (`Put`) and
2 (`Append`); the panic is modelled by `none`. -/
def KvCommand.from_put_append (r : PutAppendRequest) : Option KvCommand :=
  if r.op = 1 then some (.put r.id r.key r.value r.client)
  else if r.op = 2 then some (.append r.id r.key r.value r.client)
  else none

/-- `KvCommand::from_get`. -/
def KvCommand.from_get (r : GetRequest) : KvCommand :=
  .get r.id r.key r.client

/-- the `VirtualCommand` protobuf message: install-last-commands or
install-kvs, the two snapshot blobs. -/
inductive VirtualCommand
  | ilc (cmd : List (String × Uuid))
  | ikv (kvs : List (String × String)) (last_index : Nat)
deriving DecidableEq

/-- a decoded view of the bytes carried by an apply-stream message.
`garbage` stands for bytes no decoder accepts. -/
inductive Payload
  | putAppend (r : PutAppendRequest)
  | getReq (r : GetRequest)
  | virt (v : VirtualCommand)
  | garbage
deriving DecidableEq

/-- `KvCommand::from_bytes`: try `PutAppendRequest`, then `GetRequest`.
`none` covers both undecodable bytes (the caller panics) and the
unknown-op panic inside `from_put_append`. -/
def KvCommand.from_bytes : Payload → Option KvCommand
  | .putAppend r => KvCommand.from_put_append r
  | .getReq r => some (KvCommand.from_get r)
  | .virt _ => none
  | .garbage => none

/-- the `ApplyMsg` delivered by the raft apply stream. -/
structure ApplyMsg where
  command_valid : Bool
  command : Payload
  command_index : Nat
deriving DecidableEq

/-- the `CommandResponse` struct sent to waiters. -/
structure CommandResponse where
  command_id : Uuid
  reply : String
  command_idx : Nat
deriving DecidableEq

/-- the mutable state of `KvStateMachine`: the KV map (`state`), the
per-client last-request table (`last_command`), the registered waiter
indices (`waiting_channels`), and `last_index`. -/
structure MState where
  state : List (String × String)
  last_command : List (String × Uuid)
  waiting : List Nat
  last_index : Nat
deriving DecidableEq

/-- the freshly initialized state machine built by `KvStateMachine::new`. -/
def initState : MState :=
  { state := [], last_command := [], waiting := [], last_index := 0 }

/-- `KvStateMachine::handle_command`: skip entirely when the client's
recorded last request id equals this command's id; otherwise record the
id and then apply the mutation (`Get` falls into the `_ => ()` arm). -/
def handle_command (s : MState) (cmd : KvCommand) : MState :=
  let id := cmd.getId
  if ((mapGet s.last_command cmd.getClient).map (fun i => i == id)).getD false then
    s
  else
    let last' := mapInsert s.last_command cmd.getClient id
    match cmd with
    | .put _ key value _ =>
        { s with last_command := last', state := mapInsert s.state key value }
    | .append _ key value _ =>
        { s with last_command := last',
                 state := mapInsert s.state key
                   (((mapGet s.state key).getD "") ++ value) }
    | .get _ _ _ => { s with last_command := last' }

/-- `KvStateMachine::notify_at`: remove the waiter at `idx` if present and
send it a response; for `Get` the reply is the current map value of the
key (read before any mutation of this command), otherwise empty. -/
def notify_at (s : MState) (idx : Nat) (msg : KvCommand) :
    MState × Option CommandResponse :=
  if idx ∈ s.waiting then
    let response :=
      match msg with
      | .get id key _ =>
          CommandResponse.mk id ((mapGet s.state key).getD "") idx
      | _ => CommandResponse.mk msg.getId "" idx
    ({ s with waiting := s.waiting.erase idx }, some response)
  else (s, none)

/-- `KvStateMachine::handle_message`: assert `last_index < command_index`
(panic otherwise), decode (panic on failure), notify the waiter at the
command's index, apply the command unless it is read-only, then store
`last_index := command_index`. Panics are `none`. -/
def handle_message (s : MState) (m : ApplyMsg) :
    Option (MState × Option CommandResponse) :=
  if s.last_index < m.command_index then
    match KvCommand.from_bytes m.command with
    | none => none
    | some cmd =>
      let p := notify_at s m.command_index cmd
      let s2 := if cmd.is_readonly then p.1 else handle_command p.1 cmd
      some ({ s2 with last_index := m.command_index }, p.2)
  else none

/-- the two branches of `KvStateMachine::handle_virtual_command` after a
successful decode: merge the blob's pairs into the matching table;
`Ikv` additionally stores the blob's `last_index`. -/
def applyVirtual (s : MState) : VirtualCommand → MState
  | .ilc cmd => { s with last_command := insertAll s.last_command cmd }
  | .ikv kvs li => { s with state := insertAll s.state kvs, last_index := li }

/-- `KvStateMachine::handle_virtual_command` including the decode
`expect` (panic, modelled by `none`, when the payload is not a
`VirtualCommand`). -/
def handle_virtual_command (s : MState) (p : Payload) : Option MState :=
  match p with
  | .virt v => some (applyVirtual s v)
  | _ => none

/-- the `SnapshotFile` produced by `make_snapshot`: an ordered list of
blobs. -/
structure SnapshotFile where
  commands : List VirtualCommand
deriving DecidableEq

/-- `KvStateMachine::make_snapshot`: the last-command blob followed by
the kv blob carrying `last_index`. -/
def make_snapshot (s : MState) : SnapshotFile :=
  { commands := [.ilc s.last_command, .ikv s.state s.last_index] }

/-- running `handle_message` over a list of messages in order, collecting
the waiter notification (if any) each message produced; `none` as soon as
one message panics. -/
def handleMessages : MState → List ApplyMsg →
    Option (MState × List (Option CommandResponse))
  | s, [] => some (s, [])
  | s, m :: rest =>
    match handle_message s m with
    | none => none
    | some (s1, r) =>
      match handleMessages s1 rest with
      | none => none
      | some (s2, rs) => some (s2, r :: rs)

/-- one iteration of the FSM worker loop in `KvStateMachine::new`: a
normal entry is dropped when `last_index >= command_index`, otherwise it
is handled and the catch-up batch fetched by `try_get_log_between` over
`(command_index, commit_index]` is replayed through `handle_message`; a
snapshot payload goes to `handle_virtual_command`.  The `take_snapshot`
call (an effect on the external raft log only) does not change `MState`. -/
def applyLoopStep (s : MState) (m : ApplyMsg) (batch : List ApplyMsg) :
    Option (MState × List (Option CommandResponse)) :=
  if m.command_valid then
    if s.last_index ≥ m.command_index then some (s, [])
    else handleMessages s (m :: batch)
  else (handle_virtual_command s m.command).map (fun s' => (s', []))

/-- the mutation step of `handle_message`: a read-only command leaves the
state untouched, a mutation goes through `handle_command`. -/
def stepCommand (s : MState) (cmd : KvCommand) : MState :=
  if cmd.is_readonly then s else handle_command s cmd

/-- fold `stepCommand` over a sequence of committed commands. -/
def applyCommands (s : MState) (cmds : List KvCommand) : MState :=
  cmds.foldl stepCommand s

/-- whether `handle_command` would skip `cmd` as a duplicate in state `s`. -/
def dedupeHit (s : MState) (cmd : KvCommand) : Bool :=
  ((mapGet s.last_command cmd.getClient).map (fun i => i == cmd.getId)).getD false

/-- how many commands of the sequence actually mutate the KV map on behalf
of the pair `(c, r)`: a command counts when it is a mutation from client
`c` with id `r` that is not skipped by the dedupe check of
`handle_command` in the state it is applied in. -/
def effectCount : MState → List KvCommand → String → Uuid → Nat
  | _, [], _, _ => 0
  | s, cmd :: rest, c, r =>
    (if cmd.is_readonly = false ∧ cmd.getClient = c ∧ cmd.getId = r ∧
        dedupeHit s cmd = false then 1 else 0)
    + effectCount (stepCommand s cmd) rest c r

/-- the request ids of the mutations of client `c` in the sequence, in
order; only these commands touch `last_command c` in a run. -/
def clientMutIds (c : String) (cmds : List KvCommand) : List Uuid :=
  (cmds.filter (fun cmd => cmd.is_readonly = false ∧ cmd.getClient = c)).map
    KvCommand.getId

/-- effect counting projected onto one client's mutation ids: `cur` is the
client's current `last_command` entry; a mutation counts when its id is
`r` and `cur` is not already `some r`, and afterwards `cur` is the id. -/
def idCount : Option Uuid → List Uuid → Uuid → Nat
  | _, [], _ => 0
  | cur, i :: rest, r =>
    (if i = r ∧ cur ≠ some r then 1 else 0) + idCount (some i) rest r

/-- occurrences of `r` in `l` are contiguous: `l` splits into a prefix
without `r`, a block of only `r`, and a suffix without `r`.  This is the
shape of per-client retry traffic under the synchronous-client contract
(a client resends one request id until acknowledged, then moves on). -/
def Contiguous (r : Uuid) (l : List Uuid) : Prop :=
  ∃ l₁ l₂ l₃, l = l₁ ++ l₂ ++ l₃ ∧ r ∉ l₁ ∧ (∀ x ∈ l₂, x = r) ∧ r ∉ l₃

/-- indices of a message batch are strictly increasing and all above the
bound; this is the contract of `raft.try_get_log_between` over the range
`(command_index, commit_index]` (spec section 6). -/
def indexChain : Nat → List ApplyMsg → Prop
  | _, [] => True
  | i, m :: rest => i < m.command_index ∧ indexChain m.command_index rest

/-- `KvStateMachine::has_done`. -/
def has_done (s : MState) (client : String) (id : Uuid) : Bool :=
  ((mapGet s.last_command client).map (fun i => i == id)).getD false

/-- the `GetReply` wire message. -/
structure GetReply where
  wrong_leader : Bool
  err : String
  value : String
  err_code : Nat
deriving DecidableEq

/-- the `PutAppendReply` wire message. -/
structure PutAppendReply where
  wrong_leader : Bool
  err : String
  err_code : Nat
deriving DecidableEq

/-- the resolution of `fsm.start(cmd).select(timeout_fut())` seen by a
handler: `raft.start` refused (`notLeader` / `raftErr`), the waiter at
the returned index fired with a `CommandResponse`, the 300 ms timer won,
or the oneshot channel was dropped (shutdown). -/
inductive StartOutcome
  | notLeader
  | raftErr
  | committed (resp : CommandResponse)
  | timedOut
  | closed
deriving DecidableEq

/-- `Node::do_get`: propose, then build the reply from the outcome; the
`Ok` arm requires the committed response's id to equal the request id
(`FSM::start` maps a mismatch to `FailToCommit`). -/
def do_get (arg : GetRequest) (o : StartOutcome) : GetReply :=
  match o with
  | .notLeader => ⟨true, "not leader", "", 2⟩
  | .raftErr => ⟨false, "ERROR: Raft internal error.", "", 1⟩
  | .committed resp =>
      if resp.command_id = arg.id then ⟨false, "", resp.reply, 0⟩
      else ⟨false, "ERROR: The command failed to commit.", "", 3⟩
  | .timedOut =>
      ⟨false,
       "ERROR: The command spend too mach time for commit, maybe leader is died or network partition occurs.",
       "", 4⟩
  | .closed => ⟨false, "FSM cancels execution.", "", 5⟩

/-- `Node::do_put_append`: the fast-path dedupe check `has_done` runs
first and replies success without proposing; otherwise the command is
proposed and the reply mirrors `do_get`.  The second component records
whether the command was proposed to raft. -/
def do_put_append (s : MState) (arg : PutAppendRequest) (o : StartOutcome) :
    PutAppendReply × Bool :=
  if has_done s arg.client arg.id then (⟨false, "", 0⟩, false)
  else
    (match o with
     | .notLeader => ⟨true, "not leader", 2⟩
     | .raftErr => ⟨false, "ERROR: Raft internal error.", 1⟩
     | .committed resp =>
         if resp.command_id = arg.id then ⟨false, "", 0⟩
         else ⟨false, "ERROR: The command failed to commit.", 3⟩
     | .timedOut =>
         ⟨false,
          "ERROR: The command spend too mach time for commit, maybe leader is died or network partition occurs.",
          4⟩
     | .closed => ⟨false, "FSM cancels execution.", 5⟩,
     true)

/-- result of one RPC as the clerk sees it: transport failure or a reply. -/
inductive RpcResult (R : Type)
  | err
  | ok (reply : R)
deriving DecidableEq

/-- the per-`request` oracle for the clerk model: `attempt` is what the
single send to the cached leader yields (`none` models the 300 ms
`recv_timeout` expiring), `rounds` lists, for each discovery round, the
tagged results that arrive within its 300 ms window in arrival order. -/
structure ClerkIter (R : Type) where
  attempt : Option R
  rounds : List (List (Nat × R))

/-- `Clerk::try_send_to_current_leader`: with no cached leader nothing is
sent; otherwise one RPC goes to the cached leader, and a timeout or a
non-leader result clears the cache.  Returns the new cache, the sent
requests, and the reply if one was accepted. -/
def trySendToLeader {R A : Type} (isL : R → Bool) (leader : Option Nat)
    (args : A) (attempt : Option R) :
    Option Nat × (List (Nat × A) × Option R) :=
  match leader with
  | none => (none, ([], none))
  | some l =>
    match attempt with
    | none => (none, ([(l, args)], none))
    | some msg =>
      if isL msg then (some l, ([(l, args)], some msg))
      else (none, ([(l, args)], none))

/-- `Clerk::check_leader_and_send`: every round broadcasts the request to
all `n` replicas, then scans arriving results for the first one whose
`is_leader` predicate holds, adopting its replica index as the cached
leader; an empty fuel list models the loop still running. -/
def checkLeaderAndSend {R A : Type} (isL : R → Bool) (n : Nat) (args : A) :
    List (List (Nat × R)) → Option Nat × (List (Nat × A) × Option R)
  | [] => (none, ([], none))
  | round :: rest =>
    let sent := (List.range n).map (fun i => (i, args))
    match round.find? (fun p => isL p.2) with
    | some p => (some p.1, (sent, some p.2))
    | none =>
      let step := checkLeaderAndSend isL n args rest
      (step.1, (sent ++ step.2.1, step.2.2))

/-- `Clerk::request`: try the cached leader first, otherwise run leader
discovery. -/
def clerkRequest {R A : Type} (isL : R → Bool) (leader : Option Nat)
    (n : Nat) (args : A) (it : ClerkIter R) :
    Option Nat × (List (Nat × A) × Option R) :=
  match trySendToLeader isL leader args it.attempt with
  | (ld, (tr, some msg)) => (ld, (tr, some msg))
  | (_, (tr, none)) =>
    let step := checkLeaderAndSend isL n args it.rounds
    (step.1, (tr ++ step.2.1, step.2.2))

/-- the retry loop shared by `Clerk::get` and `Clerk::put_append`: call
`request` with the same `args` until a reply satisfies `success`
(wrong-leader and transport errors only ever restart the loop).  Returns
the full trace of sent requests and the accepted reply, if any within
the fuel. -/
def clerkLoop {R A : Type} (isL success : R → Bool) (n : Nat) (args : A) :
    Option Nat → List (ClerkIter R) → List (Nat × A) × Option R
  | _, [] => ([], none)
  | leader, it :: rest =>
    let step := clerkRequest isL leader n args it
    match step.2.2 with
    | some msg =>
      if success msg then (step.2.1, some msg)
      else
        let q := clerkLoop isL success n args step.1 rest
        (step.2.1 ++ q.1, q.2)
    | none =>
      let q := clerkLoop isL success n args step.1 rest
      (step.2.1 ++ q.1, q.2)

/-- the `is_leader` closure of `Clerk::get`. -/
def isLeaderGetReply : RpcResult GetReply → Bool
  | .err => false
  | .ok m => !m.wrong_leader

/-- the accept condition of `Clerk::get`: an `Ok` reply whose `err` is
empty. -/
def getAccepted : RpcResult GetReply → Bool
  | .err => false
  | .ok m => m.err == ""

/-- `Clerk::get`: the request struct is built once, before the retry
loop, from one fresh uuid, the key and the clerk's name. -/
def clerkGet (name key : String) (u : Uuid) (n : Nat) (leader : Option Nat)
    (its : List (ClerkIter (RpcResult GetReply))) :
    List (Nat × GetRequest) × Option (RpcResult GetReply) :=
  clerkLoop isLeaderGetReply getAccepted n (GetRequest.mk u key name) leader its

/-- the `Op` enum of `client.rs`. -/
inductive ClientOp
  | putOp (key value : String)
  | appendOp (key value : String)
deriving DecidableEq

/-- `Op::into_request` with the uuid drawn by `Clerk::new_id` passed in
explicitly: op tag 1 for Put, 2 for Append. -/
def ClientOp.into_request : ClientOp → Uuid → String → PutAppendRequest
  | .putOp key value, u, client => ⟨u, key, value, 1, client⟩
  | .appendOp key value, u, client => ⟨u, key, value, 2, client⟩

/-- the `is_leader` closure of `Clerk::put_append`. -/
def isLeaderPAReply : RpcResult PutAppendReply → Bool
  | .err => false
  | .ok m => !m.wrong_leader

/-- the accept condition of `Clerk::put_append`. -/
def paAccepted : RpcResult PutAppendReply → Bool
  | .err => false
  | .ok m => m.err == ""

/-- `Clerk::put_append`: the request struct is built once by
`into_request` (one fresh uuid) before the retry loop. -/
def clerkPutAppend (op : ClientOp) (name : String) (u : Uuid) (n : Nat)
    (leader : Option Nat)
    (its : List (ClerkIter (RpcResult PutAppendReply))) :
    List (Nat × PutAppendRequest) × Option (RpcResult PutAppendReply) :=
  clerkLoop isLeaderPAReply paAccepted n (op.into_request u name) leader its

/-! Association-list map lemmas. -/

theorem mapGet_mapInsert_self {σ : Type} (m : List (String × σ)) (k : String)
    (v : σ) : mapGet (mapInsert m k v) k = some v := by
  induction m with
  | nil => simp [mapInsert, mapGet]
  | cons p rest ih =>
    obtain ⟨k₀, v₀⟩ := p
    by_cases h : k₀ = k
    · subst h; simp [mapInsert, mapGet]
    · simp [mapInsert, mapGet, h, ih]

theorem mapGet_mapInsert_ne {σ : Type} (m : List (String × σ)) {k k' : String}
    (v : σ) (h : k ≠ k') : mapGet (mapInsert m k v) k' = mapGet m k' := by
  induction m with
  | nil => simp [mapInsert, mapGet, h]
  | cons p rest ih =>
    obtain ⟨k₀, v₀⟩ := p
    by_cases h0 : k₀ = k
    · subst h0; simp [mapInsert, mapGet, h]
    · simp [mapInsert, mapGet, h0, ih]

theorem mapInsert_of_not_mem {σ : Type} (m : List (String × σ)) {k : String}
    (v : σ) (h : k ∉ m.map Prod.fst) : mapInsert m k v = m ++ [(k, v)] := by
  induction m with
  | nil => simp [mapInsert]
  | cons p rest ih =>
    obtain ⟨k₀, v₀⟩ := p
    rw [List.map_cons, List.mem_cons] at h
    push_neg at h
    have hne : ¬ k₀ = k := fun hh => h.1 hh.symm
    simp [mapInsert, hne, ih h.2]

theorem insertAll_cons {σ : Type} (m : List (String × σ)) (p : String × σ)
    (l : List (String × σ)) :
    insertAll m (p :: l) = insertAll (mapInsert m p.1 p.2) l := rfl

theorem insertAll_of_disjoint {σ : Type} (l m : List (String × σ))
    (hdis : ∀ p ∈ l, p.1 ∉ m.map Prod.fst) (hnd : (l.map Prod.fst).Nodup) :
    insertAll m l = m ++ l := by
  induction l generalizing m with
  | nil => simp [insertAll]
  | cons p rest ih =>
    obtain ⟨k, v⟩ := p
    rw [List.map_cons, List.nodup_cons] at hnd
    rw [insertAll_cons]
    rw [mapInsert_of_not_mem m v (hdis _ (List.mem_cons_self _ _))]
    rw [ih (m ++ [(k, v)]) ?_ hnd.2]
    · simp
    · intro q hq
      have h1 : q.1 ∉ m.map Prod.fst := hdis q (List.mem_cons_of_mem _ hq)
      have h2 : q.1 ≠ k := by
        intro hqk
        have hmem := List.mem_map_of_mem Prod.fst hq
        rw [hqk] at hmem
        exact hnd.1 hmem
      simp [h1, h2]

theorem insertAll_nil_eq {σ : Type} (l : List (String × σ))
    (hnd : (l.map Prod.fst).Nodup) : insertAll [] l = l := by
  simpa using insertAll_of_disjoint l [] (by simp) hnd

theorem mapGet_insertAll_of_not_mem {σ : Type} (l m : List (String × σ))
    {k : String} (h : k ∉ l.map Prod.fst) :
    mapGet (insertAll m l) k = mapGet m k := by
  induction l generalizing m with
  | nil => rfl
  | cons p rest ih =>
    rw [List.map_cons, List.mem_cons] at h
    push_neg at h
    rw [insertAll_cons, ih _ h.2]
    exact mapGet_mapInsert_ne m p.2 (fun hh => h.1 hh.symm)

/-! Basic facts about `handle_message`. -/

theorem handle_message_some {s : MState} {m : ApplyMsg} {s' : MState}
    {r : Option CommandResponse} (h : handle_message s m = some (s', r)) :
    s.last_index < m.command_index ∧ s'.last_index = m.command_index := by
  unfold handle_message at h
  by_cases hlt : s.last_index < m.command_index
  · rw [if_pos hlt] at h
    cases hcmd : KvCommand.from_bytes m.command with
    | none => rw [hcmd] at h; cases h
    | some cmd =>
      rw [hcmd] at h
      refine ⟨hlt, ?_⟩
      cases h
      rfl
  · rw [if_neg hlt] at h; cases h

theorem handle_message_isSome {s : MState} {m : ApplyMsg}
    (hlt : s.last_index < m.command_index)
    (hdec : (KvCommand.from_bytes m.command).isSome = true) :
    (handle_message s m).isSome = true := by
  unfold handle_message
  rw [if_pos hlt]
  cases hcmd : KvCommand.from_bytes m.command with
  | none => rw [hcmd] at hdec; cases hdec
  | some cmd => simp

/-- C9: a committed `PutAppendRequest` whose `op` field is neither
1 (Put) nor 2 (Append) panics the replica: `KvCommand::from_put_append`
is total only on op 1 and 2, and such a message reaching the apply path
makes `handle_message` panic (modelled by `none`) rather than being
rejected or ignored. -/
theorem c9_unknown_op_panics :
    (∀ r : PutAppendRequest,
        KvCommand.from_put_append r = none ↔ (r.op ≠ 1 ∧ r.op ≠ 2)) ∧
    (∀ (s : MState) (m : ApplyMsg) (r : PutAppendRequest),
        m.command = Payload.putAppend r → r.op ≠ 1 → r.op ≠ 2 →
        s.last_index < m.command_index → handle_message s m = none) := by
  constructor
  · intro r
    by_cases h1 : r.op = 1
    · simp [KvCommand.from_put_append, h1]
    · by_cases h2 : r.op = 2 <;> simp [KvCommand.from_put_append, h1, h2]
  · intro s m r hm h1 h2 hlt
    simp [handle_message, hlt, hm, KvCommand.from_bytes,
      KvCommand.from_put_append, h1, h2]

/-- C9 witness: op 3 fails to decode and aborts the apply path. -/
theorem c9_witness :
    KvCommand.from_put_append (PutAppendRequest.mk 0 "k" "v" 3 "c") = none ∧
    handle_message initState
      (ApplyMsg.mk true
        (Payload.putAppend (PutAppendRequest.mk 0 "k" "v" 3 "c")) 1) = none :=
  ⟨(c9_unknown_op_panics.1 (PutAppendRequest.mk 0 "k" "v" 3 "c")).mpr
      (by decide),
   c9_unknown_op_panics.2 initState
      (ApplyMsg.mk true
        (Payload.putAppend (PutAppendRequest.mk 0 "k" "v" 3 "c")) 1)
      (PutAppendRequest.mk 0 "k" "v" 3 "c") rfl (by decide) (by decide)
      (by decide)⟩

/-- C10: snapshot installation merges rather than replaces: each branch
of `handle_virtual_command` folds the blob's pairs into the existing
table with `insert`, every key or client not mentioned in the blob keeps
its value, and neither the KV map nor the last-request table is cleared
(the untouched table is returned unchanged). -/
theorem c10_snapshot_install_merges :
    (∀ (s : MState) (cmd : List (String × Uuid)),
        (applyVirtual s (.ilc cmd)).last_command =
            insertAll s.last_command cmd ∧
        (applyVirtual s (.ilc cmd)).state = s.state ∧
        (applyVirtual s (.ilc cmd)).last_index = s.last_index ∧
        ∀ c, c ∉ cmd.map Prod.fst →
          mapGet (applyVirtual s (.ilc cmd)).last_command c =
            mapGet s.last_command c) ∧
    (∀ (s : MState) (kvs : List (String × String)) (li : Nat),
        (applyVirtual s (.ikv kvs li)).state = insertAll s.state kvs ∧
        (applyVirtual s (.ikv kvs li)).last_command = s.last_command ∧
        (applyVirtual s (.ikv kvs li)).last_index = li ∧
        ∀ k, k ∉ kvs.map Prod.fst →
          mapGet (applyVirtual s (.ikv kvs li)).state k =
            mapGet s.state k) := by
  constructor
  · intro s cmd
    refine ⟨rfl, rfl, rfl, ?_⟩
    intro c hc
    simpa [applyVirtual] using
      mapGet_insertAll_of_not_mem cmd s.last_command hc
  · intro s kvs li
    refine ⟨rfl, rfl, rfl, ?_⟩
    intro k hk
    simpa [applyVirtual] using mapGet_insertAll_of_not_mem kvs s.state hk

/-- C10 witness: installing a kv blob for key `b` leaves key `a` intact. -/
theorem c10_witness :
    mapGet (applyVirtual (MState.mk [("a", "1")] [] [] 0)
        (VirtualCommand.ikv [("b", "2")] 4)).state "a" =
      mapGet (MState.mk [("a", "1")] [] [] 0).state "a" :=
  (c10_snapshot_install_merges.2 (MState.mk [("a", "1")] [] [] 0)
      [("b", "2")] 4).2.2.2 "a" (by decide)

/-- C4: snapshot round-trip: encoding a state with `make_snapshot` and
installing the two resulting blobs in order into a freshly initialized
state machine reproduces the kv map, the last-request table, and the
last-applied index exactly (the map key sets are duplicate-free, the
invariant of `BTreeMap`/`HashMap` iteration). -/
theorem c4_snapshot_roundtrip (s : MState)
    (h1 : (s.state.map Prod.fst).Nodup)
    (h2 : (s.last_command.map Prod.fst).Nodup) :
    ((make_snapshot s).commands.foldl applyVirtual initState).state =
        s.state ∧
    ((make_snapshot s).commands.foldl applyVirtual initState).last_command =
        s.last_command ∧
    ((make_snapshot s).commands.foldl applyVirtual initState).last_index =
        s.last_index := by
  refine ⟨?_, ?_, rfl⟩
  · exact insertAll_nil_eq s.state h1
  · exact insertAll_nil_eq s.last_command h2

/-- C4 witness at a concrete state. -/
theorem c4_witness :
    ((make_snapshot (MState.mk [("a", "1"), ("b", "2")] [("cl", 5)] [] 7)).commands.foldl
        applyVirtual initState).state =
      (MState.mk [("a", "1"), ("b", "2")] [("cl", 5)] [] 7).state ∧
    ((make_snapshot (MState.mk [("a", "1"), ("b", "2")] [("cl", 5)] [] 7)).commands.foldl
        applyVirtual initState).last_command =
      (MState.mk [("a", "1"), ("b", "2")] [("cl", 5)] [] 7).last_command ∧
    ((make_snapshot (MState.mk [("a", "1"), ("b", "2")] [("cl", 5)] [] 7)).commands.foldl
        applyVirtual initState).last_index =
      (MState.mk [("a", "1"), ("b", "2")] [("cl", 5)] [] 7).last_index :=
  c4_snapshot_roundtrip (MState.mk [("a", "1"), ("b", "2")] [("cl", 5)] [] 7)
    (by decide) (by decide)

/-- C3 counterexample: a snapshot install can store a smaller index than
the current one — `handle_virtual_command` writes the blob's
`last_index` unconditionally, here 3 over a current value of 5. -/
theorem c3_counterexample :
    (handle_virtual_command (MState.mk [] [] [] 5)
        (Payload.virt (VirtualCommand.ikv [] 3))).map MState.last_index =
      some 3 ∧
    (MState.mk [] [] [] 5).last_index = 5 ∧ 3 < 5 := by
  refine ⟨rfl, rfl, by decide⟩

/-- C3 (amended): every successful normal apply stores a strictly larger
`last_index`; a snapshot install leaves it unchanged (`Ilc` blob) or
stores exactly the blob's index (`Ikv` blob) with no guard against it
being smaller than the current one, so installs are non-decreasing only
when the delivered snapshot is at least as recent as local state. -/
theorem c3_monotonic_apply :
    (∀ (s : MState) (m : ApplyMsg) (s' : MState) (r : Option CommandResponse),
        handle_message s m = some (s', r) → s.last_index < s'.last_index) ∧
    (∀ (s : MState) (cmd : List (String × Uuid)),
        (applyVirtual s (.ilc cmd)).last_index = s.last_index) ∧
    (∀ (s : MState) (kvs : List (String × String)) (li : Nat),
        (applyVirtual s (.ikv kvs li)).last_index = li) := by
  refine ⟨?_, fun s cmd => rfl, fun s kvs li => rfl⟩
  intro s m s' r h
  obtain ⟨hlt, heq⟩ := handle_message_some h
  omega

/-- C3 witness: applying a put at index 1 over a fresh state strictly
increases `last_index`. -/
theorem c3_witness :
    initState.last_index <
      (MState.mk [("k", "v")] [("c", 0)] [] 1).last_index :=
  c3_monotonic_apply.1 initState
    (ApplyMsg.mk true
      (Payload.putAppend (PutAppendRequest.mk 0 "k" "v" 1 "c")) 1)
    (MState.mk [("k", "v")] [("c", 0)] [] 1) none (by decide)

/-! Facts about `handle_command`, `stepCommand` and the dedupe check. -/

theorem dedupeHit_iff {s : MState} {cmd : KvCommand} :
    dedupeHit s cmd = true ↔
      mapGet s.last_command cmd.getClient = some cmd.getId := by
  unfold dedupeHit
  cases h : mapGet s.last_command cmd.getClient <;> simp

theorem handle_command_of_hit {s : MState} {cmd : KvCommand}
    (h : mapGet s.last_command cmd.getClient = some cmd.getId) :
    handle_command s cmd = s := by
  unfold handle_command
  rw [h]
  simp

theorem handle_command_last_self (s : MState) (cmd : KvCommand) :
    mapGet (handle_command s cmd).last_command cmd.getClient =
      some cmd.getId := by
  unfold handle_command
  cases h : mapGet s.last_command cmd.getClient with
  | none =>
    cases cmd <;> simp [mapGet_mapInsert_self]
  | some j =>
    by_cases hj : j = cmd.getId
    · subst hj
      simpa using h
    · simp only [Option.map_some, Option.getD_some, beq_iff_eq, hj,
        if_false]
      cases cmd <;> simp [hj, mapGet_mapInsert_self]

theorem stepCommand_last_self {s : MState} {cmd : KvCommand}
    (h : cmd.is_readonly = false) :
    mapGet (stepCommand s cmd).last_command cmd.getClient =
      some cmd.getId := by
  simp [stepCommand, h, handle_command_last_self]

theorem handle_command_last_ne {s : MState} {cmd : KvCommand} {c : String}
    (hc : c ≠ cmd.getClient) :
    mapGet (handle_command s cmd).last_command c =
      mapGet s.last_command c := by
  unfold handle_command
  cases h : mapGet s.last_command cmd.getClient with
  | none =>
    cases cmd <;>
      simp [mapGet_mapInsert_ne _ _ (fun hh => hc hh.symm)]
  | some j =>
    by_cases hj : j = cmd.getId
    · subst hj
      simp
    · simp only [Option.map_some, Option.getD_some, beq_iff_eq, hj,
        if_false]
      cases cmd <;>
        simp [hj, mapGet_mapInsert_ne _ _ (fun hh => hc hh.symm)]

theorem stepCommand_last_ne {s : MState} {cmd : KvCommand} {c : String}
    (hc : c ≠ cmd.getClient) :
    mapGet (stepCommand s cmd).last_command c = mapGet s.last_command c := by
  unfold stepCommand
  by_cases hro : cmd.is_readonly
  · rw [if_pos hro]
  · rw [if_neg hro]
    exact handle_command_last_ne hc

/-! Provenance of `last_command` entries over a run of committed
commands. -/

theorem applyCommands_last_provenance (s : MState) (cmds : List KvCommand)
    (c : String) (i : Uuid)
    (h : mapGet (applyCommands s cmds).last_command c = some i) :
    mapGet s.last_command c = some i ∨
      ∃ cmd ∈ cmds, cmd.is_readonly = false ∧ cmd.getClient = c ∧
        cmd.getId = i := by
  induction cmds generalizing s with
  | nil => exact Or.inl h
  | cons cmd rest ih =>
    have hstep : applyCommands s (cmd :: rest) =
        applyCommands (stepCommand s cmd) rest := rfl
    rw [hstep] at h
    rcases ih (stepCommand s cmd) h with h1 | ⟨cmd', hmem, hp⟩
    · by_cases hro : cmd.is_readonly = true
      · left
        simpa [stepCommand, hro] using h1
      · replace hro : cmd.is_readonly = false := by
          cases hcro : cmd.is_readonly
          · rfl
          · exact absurd hcro hro
        by_cases hc : c = cmd.getClient
        · subst hc
          right
          refine ⟨cmd, List.mem_cons_self _ _, hro, rfl, ?_⟩
          rw [stepCommand_last_self hro] at h1
          exact Option.some.inj h1
        · left
          rw [stepCommand_last_ne hc] at h1
          exact h1
    · exact Or.inr ⟨cmd', List.mem_cons_of_mem _ hmem, hp⟩

/-- C5: fast-path dedupe: `do_put_append` replies success (wrong_leader
false, empty err, err_code 0) without proposing to raft exactly when
`has_done` holds for `(arg.client, arg.id)` at the time of the call; and
an entry `LastRequest[c] = i` in a state reached from the initial state
is only ever produced by an applied mutation with that client and id, so
success-without-proposal implies an earlier applied proposal for the
same pair. -/
theorem c5_fast_path_dedupe :
    (∀ (s : MState) (arg : PutAppendRequest) (o : StartOutcome),
        ((do_put_append s arg o).2 = false ↔
          has_done s arg.client arg.id = true) ∧
        ((do_put_append s arg o).2 = false →
          (do_put_append s arg o).1 = PutAppendReply.mk false "" 0)) ∧
    (∀ (cmds : List KvCommand) (c : String) (i : Uuid),
        mapGet (applyCommands initState cmds).last_command c = some i →
        ∃ cmd ∈ cmds, cmd.is_readonly = false ∧ cmd.getClient = c ∧
          cmd.getId = i) := by
  constructor
  · intro s arg o
    by_cases h : has_done s arg.client arg.id = true
    · constructor
      · simp [do_put_append, h]
      · intro _
        simp [do_put_append, h]
    · have h' : has_done s arg.client arg.id = false := by
        cases hh : has_done s arg.client arg.id
        · rfl
        · exact absurd hh h
      constructor
      · simp [do_put_append, h']
      · intro hfalse
        simp [do_put_append, h'] at hfalse
  · intro cmds c i h
    rcases applyCommands_last_provenance initState cmds c i h with h1 | h2
    · simp [initState, mapGet] at h1
    · exact h2

/-- C5 witness: a duplicate request takes the fast path, and a concrete
table entry has a matching applied mutation. -/
theorem c5_witness :
    (do_put_append (MState.mk [] [("c", 7)] [] 1)
        (PutAppendRequest.mk 7 "k" "v" 1 "c") StartOutcome.timedOut).2 =
      false ∧
    ∃ cmd ∈ [KvCommand.put 9 "k" "v" "d"], cmd.is_readonly = false ∧
      cmd.getClient = "d" ∧ cmd.getId = 9 :=
  ⟨((c5_fast_path_dedupe.1 (MState.mk [] [("c", 7)] [] 1)
      (PutAppendRequest.mk 7 "k" "v" 1 "c") StartOutcome.timedOut).1).mpr
      (by decide),
   c5_fast_path_dedupe.2 [KvCommand.put 9 "k" "v" "d"] "d" 9 (by decide)⟩

/-- C6: commit-mismatch error: when the waiter of a proposal is fulfilled
with a response whose command id differs from the proposed request id,
both handlers reply FAIL_TO_COMMIT (err_code 3, wrong_leader false,
non-empty err); and, given the put/append fast path did not fire, a
success (err_code 0) happens only when the fulfilled response's command
id equals the proposed request id. -/
theorem c6_commit_mismatch :
    (∀ (arg : GetRequest) (resp : CommandResponse),
        resp.command_id ≠ arg.id →
        do_get arg (.committed resp) =
          GetReply.mk false "ERROR: The command failed to commit." "" 3) ∧
    (∀ (arg : GetRequest) (o : StartOutcome),
        (do_get arg o).err_code = 0 →
        ∃ resp, o = .committed resp ∧ resp.command_id = arg.id) ∧
    (∀ (s : MState) (arg : PutAppendRequest) (resp : CommandResponse),
        has_done s arg.client arg.id = false → resp.command_id ≠ arg.id →
        (do_put_append s arg (.committed resp)).1 =
          PutAppendReply.mk false "ERROR: The command failed to commit." 3) ∧
    (∀ (s : MState) (arg : PutAppendRequest) (o : StartOutcome),
        has_done s arg.client arg.id = false →
        ((do_put_append s arg o).1).err_code = 0 →
        ∃ resp, o = .committed resp ∧ resp.command_id = arg.id) := by
  refine ⟨?_, ?_, ?_, ?_⟩
  · intro arg resp hne
    simp [do_get, hne]
  · intro arg o h
    cases o with
    | notLeader => simp [do_get] at h
    | raftErr => simp [do_get] at h
    | committed resp =>
      by_cases he : resp.command_id = arg.id
      · exact ⟨resp, rfl, he⟩
      · simp [do_get, he] at h
    | timedOut => simp [do_get] at h
    | closed => simp [do_get] at h
  · intro s arg resp h0 hne
    simp [do_put_append, h0, hne]
  · intro s arg o h0 h
    cases o with
    | notLeader => simp [do_put_append, h0] at h
    | raftErr => simp [do_put_append, h0] at h
    | committed resp =>
      by_cases he : resp.command_id = arg.id
      · exact ⟨resp, rfl, he⟩
      · simp [do_put_append, h0, he] at h
    | timedOut => simp [do_put_append, h0] at h
    | closed => simp [do_put_append, h0] at h

/-- C6 witness: a mismatching committed response yields a
FAIL_TO_COMMIT reply on both handlers. -/
theorem c6_witness :
    do_get (GetRequest.mk 1 "k" "c")
        (StartOutcome.committed (CommandResponse.mk 2 "" 5)) =
      GetReply.mk false "ERROR: The command failed to commit." "" 3 ∧
    (do_put_append initState (PutAppendRequest.mk 1 "k" "v" 1 "c")
        (StartOutcome.committed (CommandResponse.mk 2 "" 5))).1 =
      PutAppendReply.mk false "ERROR: The command failed to commit." 3 :=
  ⟨c6_commit_mismatch.1 (GetRequest.mk 1 "k" "c")
      (CommandResponse.mk 2 "" 5) (by decide),
   c6_commit_mismatch.2.2.1 initState (PutAppendRequest.mk 1 "k" "v" 1 "c")
      (CommandResponse.mk 2 "" 5) (by decide) (by decide)⟩

/-! Lemmas about runs of `handle_message`. -/

theorem handleMessages_nil (s : MState) : handleMessages s [] = some (s, []) :=
  rfl

theorem handleMessages_cons (s : MState) (m : ApplyMsg)
    (rest : List ApplyMsg) :
    handleMessages s (m :: rest) =
      match handle_message s m with
      | none => none
      | some (s1, r) =>
        match handleMessages s1 rest with
        | none => none
        | some (s2, rs) => some (s2, r :: rs) := rfl

theorem handleMessages_isSome {msgs : List ApplyMsg} {s : MState}
    (hdec : ∀ b ∈ msgs, (KvCommand.from_bytes b.command).isSome = true)
    (hchain : indexChain s.last_index msgs) :
    (handleMessages s msgs).isSome = true := by
  induction msgs generalizing s with
  | nil => simp [handleMessages_nil]
  | cons m rest ih =>
    obtain ⟨hlt, hch⟩ := hchain
    have h1 := handle_message_isSome hlt (hdec m (List.mem_cons_self _ _))
    obtain ⟨pr, heq⟩ := Option.isSome_iff_exists.mp h1
    obtain ⟨s1, r⟩ := pr
    have hidx : s1.last_index = m.command_index := (handle_message_some heq).2
    have hch' : indexChain s1.last_index rest := by rw [hidx]; exact hch
    have h2 := ih (fun b hb => hdec b (List.mem_cons_of_mem _ hb)) hch'
    obtain ⟨pr2, heq2⟩ := Option.isSome_iff_exists.mp h2
    obtain ⟨s2, rs⟩ := pr2
    simp [handleMessages_cons, heq, heq2]

theorem handleMessages_append (s : MState) (l₁ l₂ : List ApplyMsg) :
    handleMessages s (l₁ ++ l₂) =
      match handleMessages s l₁ with
      | none => none
      | some (s1, rs) =>
        match handleMessages s1 l₂ with
        | none => none
        | some (s2, rs2) => some (s2, rs ++ rs2) := by
  induction l₁ generalizing s with
  | nil =>
    rw [List.nil_append]
    cases h : handleMessages s l₂ with
    | none => simp [handleMessages_nil, h]
    | some pr =>
      obtain ⟨s2, rs2⟩ := pr
      simp [handleMessages_nil, h]
  | cons m rest ih =>
    rw [List.cons_append]
    cases hm : handle_message s m with
    | none => simp [handleMessages_cons, hm]
    | some pr =>
      obtain ⟨s1, r⟩ := pr
      cases h1 : handleMessages s1 rest with
      | none =>
        have hl : handleMessages s1 (rest ++ l₂) = none := by
          rw [ih s1]
          simp [h1]
        simp [handleMessages_cons, hm, h1, hl]
      | some pr1 =>
        obtain ⟨s2, rs⟩ := pr1
        cases h2 : handleMessages s2 l₂ with
        | none =>
          have hl : handleMessages s1 (rest ++ l₂) = none := by
            rw [ih s1]
            simp [h1, h2]
          simp [handleMessages_cons, hm, h1, h2, hl]
        | some pr2 =>
          obtain ⟨s3, rs2⟩ := pr2
          have hl : handleMessages s1 (rest ++ l₂) = some (s3, rs ++ rs2) := by
            rw [ih s1]
            simp [h1, h2]
          simp [handleMessages_cons, hm, h1, h2, hl]

theorem handleMessages_le {msgs : List ApplyMsg} {s s1 : MState}
    {rs : List (Option CommandResponse)}
    (h : handleMessages s msgs = some (s1, rs)) :
    s.last_index ≤ s1.last_index := by
  induction msgs generalizing s s1 rs with
  | nil =>
    rw [handleMessages_nil] at h
    cases h
    exact le_refl _
  | cons m rest ih =>
    rw [handleMessages_cons] at h
    cases hm : handle_message s m with
    | none => simp [hm] at h
    | some pr =>
      obtain ⟨sa, r⟩ := pr
      cases hrest : handleMessages sa rest with
      | none => simp [hm, hrest] at h
      | some pr2 =>
        obtain ⟨s2, rs2⟩ := pr2
        simp [hm, hrest] at h
        obtain ⟨he, hrs⟩ := h
        subst he
        obtain ⟨hlt, heq⟩ := handle_message_some hm
        have h2 := ih hrest
        omega

theorem handleMessages_index_le {msgs : List ApplyMsg} {s s1 : MState}
    {rs : List (Option CommandResponse)}
    (h : handleMessages s msgs = some (s1, rs)) :
    ∀ m ∈ msgs, m.command_index ≤ s1.last_index := by
  induction msgs generalizing s s1 rs with
  | nil => intro m hm; cases hm
  | cons m0 rest ih =>
    intro m hm
    rw [handleMessages_cons] at h
    cases hm0 : handle_message s m0 with
    | none => simp [hm0] at h
    | some pr =>
      obtain ⟨sa, r⟩ := pr
      cases hrest : handleMessages sa rest with
      | none => simp [hm0, hrest] at h
      | some pr2 =>
        obtain ⟨s2, rs2⟩ := pr2
        simp [hm0, hrest] at h
        obtain ⟨he, hrs⟩ := h
        subst he
        rcases List.mem_cons.mp hm with hcase | hcase
        · subst hcase
          have heq := (handle_message_some hm0).2
          have hle := handleMessages_le hrest
          omega
        · exact ih hrest m hcase

/-- C7: stale-index drop and assertion validity: a normal apply-stream
message with `command_index ≤ last_index` is dropped by the FSM worker
loop with no change at all to the state and no notification; and when
the guard passes, given decodable commands and the
`try_get_log_between` contract (batch indices strictly increasing above
the head message's index), the `assert!(last_index < command_index)`
inside `handle_message` never fires on the direct path or on the
catch-up replay (the whole step returns `some`). -/
theorem c7_stale_drop_and_assert :
    (∀ (s : MState) (m : ApplyMsg) (batch : List ApplyMsg),
        m.command_valid = true → m.command_index ≤ s.last_index →
        applyLoopStep s m batch = some (s, [])) ∧
    (∀ (s : MState) (m : ApplyMsg) (batch : List ApplyMsg),
        m.command_valid = true → s.last_index < m.command_index →
        (KvCommand.from_bytes m.command).isSome = true →
        (∀ b ∈ batch, (KvCommand.from_bytes b.command).isSome = true) →
        indexChain m.command_index batch →
        (applyLoopStep s m batch).isSome = true) := by
  constructor
  · intro s m batch hv hle
    simp [applyLoopStep, hv, hle]
  · intro s m batch hv hlt hdec hbatch hchain
    have hnot : ¬ s.last_index ≥ m.command_index := by omega
    simp only [applyLoopStep, hv, if_true, hnot, if_false]
    exact handleMessages_isSome
      (by
        intro b hb
        rcases List.mem_cons.mp hb with hcase | hcase
        · subst hcase; exact hdec
        · exact hbatch b hcase)
      ⟨hlt, hchain⟩

/-- C7 witness: a stale message is dropped unchanged; a fresh message
with an in-order catch-up batch is fully applied. -/
theorem c7_witness :
    applyLoopStep (MState.mk [] [] [] 5)
        (ApplyMsg.mk true (Payload.getReq (GetRequest.mk 0 "k" "c")) 3) [] =
      some (MState.mk [] [] [] 5, []) ∧
    (applyLoopStep initState
        (ApplyMsg.mk true (Payload.getReq (GetRequest.mk 0 "k" "c")) 1)
        [ApplyMsg.mk true (Payload.getReq (GetRequest.mk 1 "k" "c")) 2]).isSome =
      true :=
  ⟨c7_stale_drop_and_assert.1 (MState.mk [] [] [] 5)
      (ApplyMsg.mk true (Payload.getReq (GetRequest.mk 0 "k" "c")) 3) []
      rfl (by decide),
   c7_stale_drop_and_assert.2 initState
      (ApplyMsg.mk true (Payload.getReq (GetRequest.mk 0 "k" "c")) 1)
      [ApplyMsg.mk true (Payload.getReq (GetRequest.mk 1 "k" "c")) 2]
      rfl (by decide) (by decide) (by decide) ⟨by decide, trivial⟩⟩

/-- C2: Get freshness / notify-before-mutate: running the apply stream
from any state, a committed `Get` at index `i` with a registered waiter
is answered with the map value of its key as produced by exactly the
messages applied before it — whose indices are all strictly below `i` —
and the `Get` step itself changes neither the KV map nor the
last-request table (so no mutation at index `i` or above is observed). -/
theorem c2_get_freshness (s0 : MState) (pre : List ApplyMsg)
    (g : GetRequest) (i : Nat) (s1 : MState)
    (rs1 : List (Option CommandResponse))
    (hpre : handleMessages s0 pre = some (s1, rs1))
    (hlt : s1.last_index < i) (hw : i ∈ s1.waiting) :
    handleMessages s0 (pre ++ [ApplyMsg.mk true (Payload.getReq g) i]) =
      some (MState.mk s1.state s1.last_command (s1.waiting.erase i) i,
        rs1 ++ [some (CommandResponse.mk g.id
          ((mapGet s1.state g.key).getD "") i)]) ∧
    ∀ m ∈ pre, m.command_index < i := by
  constructor
  · rw [handleMessages_append, hpre]
    have hsingle :
        handleMessages s1 [ApplyMsg.mk true (Payload.getReq g) i] =
          some (MState.mk s1.state s1.last_command (s1.waiting.erase i) i,
            [some (CommandResponse.mk g.id
              ((mapGet s1.state g.key).getD "") i)]) := by
      rw [handleMessages_cons]
      simp [handle_message, hlt, KvCommand.from_bytes, KvCommand.from_get,
        notify_at, hw, KvCommand.is_readonly, handleMessages_nil]
    simp [hsingle]
  · intro m hm
    have := handleMessages_index_le hpre m hm
    omega

/-- C2 witness: after a put and an append on key `k` at indices 1 and 2,
a `Get` at index 3 with a registered waiter is answered with `ab`. -/
theorem c2_witness :
    handleMessages (MState.mk [] [] [3] 0)
        ([ApplyMsg.mk true
            (Payload.putAppend (PutAppendRequest.mk 10 "k" "a" 1 "c")) 1,
          ApplyMsg.mk true
            (Payload.putAppend (PutAppendRequest.mk 11 "k" "b" 2 "c")) 2] ++
          [ApplyMsg.mk true (Payload.getReq (GetRequest.mk 12 "k" "c")) 3]) =
      some (MState.mk [("k", "ab")] [("c", 11)] (([3] : List Nat).erase 3) 3,
        [none, none] ++ [some (CommandResponse.mk 12
          ((mapGet [("k", "ab")] "k").getD "") 3)]) ∧
    ∀ m ∈ [ApplyMsg.mk true
            (Payload.putAppend (PutAppendRequest.mk 10 "k" "a" 1 "c")) 1,
          ApplyMsg.mk true
            (Payload.putAppend (PutAppendRequest.mk 11 "k" "b" 2 "c")) 2],
      m.command_index < 3 :=
  c2_get_freshness (MState.mk [] [] [3] 0)
    [ApplyMsg.mk true
        (Payload.putAppend (PutAppendRequest.mk 10 "k" "a" 1 "c")) 1,
      ApplyMsg.mk true
        (Payload.putAppend (PutAppendRequest.mk 11 "k" "b" 2 "c")) 2]
    (GetRequest.mk 12 "k" "c") 3
    (MState.mk [("k", "ab")] [("c", 11)] [3] 2) [none, none]
    (by decide) (by decide) (by decide)

/-! Effect counting for the at-most-once property. -/

theorem effectCount_cons (s : MState) (cmd : KvCommand)
    (rest : List KvCommand) (c : String) (r : Uuid) :
    effectCount s (cmd :: rest) c r =
      (if cmd.is_readonly = false ∧ cmd.getClient = c ∧ cmd.getId = r ∧
          dedupeHit s cmd = false then 1 else 0)
      + effectCount (stepCommand s cmd) rest c r := rfl

theorem idCount_cons (cur : Option Uuid) (i : Uuid) (l : List Uuid)
    (r : Uuid) :
    idCount cur (i :: l) r =
      (if i = r ∧ cur ≠ some r then 1 else 0) + idCount (some i) l r := rfl

theorem clientMutIds_cons (c : String) (cmd : KvCommand)
    (rest : List KvCommand) :
    clientMutIds c (cmd :: rest) =
      if cmd.is_readonly = false ∧ cmd.getClient = c
      then cmd.getId :: clientMutIds c rest else clientMutIds c rest := by
  simp only [clientMutIds, List.filter_cons]
  by_cases h : cmd.is_readonly = false ∧ cmd.getClient = c
  · simp [h]
  · simp [h]

theorem dedupeHit_eq_false_iff {s : MState} {cmd : KvCommand} :
    dedupeHit s cmd = false ↔
      ¬ mapGet s.last_command cmd.getClient = some cmd.getId := by
  rw [← dedupeHit_iff]
  cases dedupeHit s cmd <;> simp

theorem effectCount_eq_idCount (s : MState) (cmds : List KvCommand)
    (c : String) (r : Uuid) :
    effectCount s cmds c r =
      idCount (mapGet s.last_command c) (clientMutIds c cmds) r := by
  induction cmds generalizing s with
  | nil => rfl
  | cons cmd rest ih =>
    by_cases hro : cmd.is_readonly = true
    · have hstep : stepCommand s cmd = s := by simp [stepCommand, hro]
      have hfil : clientMutIds c (cmd :: rest) = clientMutIds c rest := by
        rw [clientMutIds_cons, if_neg]
        rintro ⟨h1, _⟩
        rw [hro] at h1
        cases h1
      have hcond : ¬ (cmd.is_readonly = false ∧ cmd.getClient = c ∧
          cmd.getId = r ∧ dedupeHit s cmd = false) := by
        rintro ⟨h1, _⟩
        rw [hro] at h1
        cases h1
      rw [effectCount_cons, if_neg hcond, hstep, hfil, ih]
      simp
    · replace hro : cmd.is_readonly = false := by
        cases hcro : cmd.is_readonly
        · rfl
        · exact absurd hcro hro
      by_cases hc : cmd.getClient = c
      · rw [effectCount_cons, clientMutIds_cons]
        have hmut : (if cmd.is_readonly = false ∧ cmd.getClient = c
            then cmd.getId :: clientMutIds c rest
            else clientMutIds c rest) = cmd.getId :: clientMutIds c rest :=
          if_pos ⟨hro, hc⟩
        rw [hmut, idCount_cons]
        have hlast : mapGet (stepCommand s cmd).last_command c =
            some cmd.getId := by
          rw [← hc]
          exact stepCommand_last_self hro
        rw [ih (stepCommand s cmd), hlast]
        have hiff : (cmd.is_readonly = false ∧ cmd.getClient = c ∧
            cmd.getId = r ∧ dedupeHit s cmd = false) ↔
            (cmd.getId = r ∧ mapGet s.last_command c ≠ some r) := by
          constructor
          · rintro ⟨_, _, hid, hd⟩
            subst hid
            refine ⟨rfl, ?_⟩
            rw [← hc]
            exact dedupeHit_eq_false_iff.mp hd
          · rintro ⟨hid, hne⟩
            subst hid
            refine ⟨hro, hc, rfl, ?_⟩
            apply dedupeHit_eq_false_iff.mpr
            rw [hc]
            exact hne
        simp only [hiff]
      · rw [effectCount_cons, clientMutIds_cons]
        have hmut : (if cmd.is_readonly = false ∧ cmd.getClient = c
            then cmd.getId :: clientMutIds c rest
            else clientMutIds c rest) = clientMutIds c rest :=
          if_neg (fun h => hc h.2)
        have hpre : mapGet (stepCommand s cmd).last_command c =
            mapGet s.last_command c :=
          stepCommand_last_ne (fun hcc => hc hcc.symm)
        have hcond : ¬ (cmd.is_readonly = false ∧ cmd.getClient = c ∧
            cmd.getId = r ∧ dedupeHit s cmd = false) := fun h => hc h.2.1
        rw [hmut, if_neg hcond, ih (stepCommand s cmd), hpre]
        simp

theorem idCount_of_not_mem {l : List Uuid} {r : Uuid} (cur : Option Uuid)
    (h : r ∉ l) : idCount cur l r = 0 := by
  induction l generalizing cur with
  | nil => rfl
  | cons i rest ih =>
    rw [List.mem_cons] at h
    push_neg at h
    rw [idCount_cons, if_neg (fun hc => h.1 hc.1.symm), ih _ h.2]

theorem idCount_all_eq_some {l : List Uuid} {r : Uuid}
    (h : ∀ x ∈ l, x = r) : idCount (some r) l r = 0 := by
  induction l with
  | nil => rfl
  | cons i rest ih =>
    have hi : i = r := h i (List.mem_cons_self _ _)
    subst hi
    rw [idCount_cons, if_neg (fun hc => hc.2 rfl),
      ih (fun x hx => h x (List.mem_cons_of_mem _ hx))]

theorem idCount_all_le_one {l : List Uuid} {r : Uuid} (cur : Option Uuid)
    (h : ∀ x ∈ l, x = r) : idCount cur l r ≤ 1 := by
  cases l with
  | nil => simp [idCount]
  | cons i rest =>
    have hi : i = r := h i (List.mem_cons_self _ _)
    subst hi
    rw [idCount_cons,
      idCount_all_eq_some (fun x hx => h x (List.mem_cons_of_mem _ hx))]
    split <;> omega

theorem idCount_append (cur : Option Uuid) (l₁ l₂ : List Uuid) (r : Uuid) :
    idCount cur (l₁ ++ l₂) r =
      idCount cur l₁ r +
        idCount (l₁.foldl (fun _ i => some i) cur) l₂ r := by
  induction l₁ generalizing cur with
  | nil => simp [idCount]
  | cons i rest ih =>
    rw [List.cons_append, idCount_cons, idCount_cons, ih (some i)]
    simp [Nat.add_assoc]

/-- C1 counterexample: with dedupe tracking only the last request id per
client, a redelivery of `(c, 0)` after an intervening different request
from the same client mutates a second time: the sequence
append(c,0,k,x); put(c,1,k2,v); append(c,0,k,x) incorporates two effects
for the pair `(c, 0)`, leaving value `xx` under key `k`. -/
theorem c1_counterexample :
    ¬ (effectCount initState
        [KvCommand.append 0 "k" "x" "c", KvCommand.put 1 "k2" "v" "c",
          KvCommand.append 0 "k" "x" "c"] "c" 0 ≤ 1) ∧
    mapGet (applyCommands initState
        [KvCommand.append 0 "k" "x" "c", KvCommand.put 1 "k2" "v" "c",
          KvCommand.append 0 "k" "x" "c"]).state "k" = some "xx" := by
  constructor <;> decide

/-- C1 (amended): `handle_command` is a no-op whenever the client's
recorded last request id equals the command's id; and over any sequence
of applied commands in which the mutations of a client carrying one
request id are not separated by a mutation of the same client with a
different id (the shape of retry traffic under the synchronous-client
contract), at most one Put/Append effect per `(client, request_id)` pair
is incorporated into the KV map. -/
theorem c1_at_most_once :
    (∀ (s : MState) (cmd : KvCommand),
        mapGet s.last_command cmd.getClient = some cmd.getId →
        handle_command s cmd = s) ∧
    (∀ (s : MState) (cmds : List KvCommand) (c : String) (r : Uuid),
        Contiguous r (clientMutIds c cmds) →
        effectCount s cmds c r ≤ 1) := by
  constructor
  · intro s cmd h
    exact handle_command_of_hit h
  · intro s cmds c r hcont
    rw [effectCount_eq_idCount]
    obtain ⟨l₁, l₂, l₃, heq, h1, h2, h3⟩ := hcont
    rw [heq, idCount_append, idCount_append]
    have e1 : idCount (mapGet s.last_command c) l₁ r = 0 :=
      idCount_of_not_mem _ h1
    have e2 :=
      idCount_all_le_one
        (l₁.foldl (fun _ i => some i) (mapGet s.last_command c)) h2
    have e3 :=
      idCount_of_not_mem
        ((l₁ ++ l₂).foldl (fun _ i => some i) (mapGet s.last_command c)) h3
    omega

/-- C1 witness: a duplicate with the table entry still in place is a
no-op, and a contiguous retry burst yields at most one effect. -/
theorem c1_witness :
    handle_command (MState.mk [] [("c", 5)] [] 0)
        (KvCommand.put 5 "k" "v" "c") =
      MState.mk [] [("c", 5)] [] 0 ∧
    effectCount initState
      [KvCommand.append 0 "k" "x" "c", KvCommand.append 0 "k" "x" "c",
        KvCommand.put 1 "k2" "v" "c"] "c" 0 ≤ 1 :=
  ⟨c1_at_most_once.1 (MState.mk [] [("c", 5)] [] 0)
      (KvCommand.put 5 "k" "v" "c") (by decide),
   c1_at_most_once.2 initState
      [KvCommand.append 0 "k" "x" "c", KvCommand.append 0 "k" "x" "c",
        KvCommand.put 1 "k2" "v" "c"] "c" 0
      ⟨[], [0, 0], [1], by decide, by decide, by decide, by decide⟩⟩

/-! Trace lemmas for the clerk retry machinery. -/

theorem trySendToLeader_trace {R A : Type} (isL : R → Bool)
    (leader : Option Nat) (args : A) (attempt : Option R) :
    ∀ p ∈ (trySendToLeader isL leader args attempt).2.1, p.2 = args := by
  intro p hp
  obtain ⟨pi, pa⟩ := p
  cases leader with
  | none => simp [trySendToLeader] at hp
  | some l =>
    cases attempt with
    | none =>
      simp [trySendToLeader] at hp
      exact hp.2
    | some msg =>
      by_cases h : isL msg
      · simp [trySendToLeader, h] at hp
        exact hp.2
      · simp [trySendToLeader, h] at hp
        exact hp.2

theorem checkLeaderAndSend_cons {R A : Type} (isL : R → Bool) (n : Nat)
    (args : A) (round : List (Nat × R)) (rest : List (List (Nat × R))) :
    checkLeaderAndSend isL n args (round :: rest) =
      match round.find? (fun p => isL p.2) with
      | some p =>
          (some p.1, ((List.range n).map (fun i => (i, args)), some p.2))
      | none =>
          let step := checkLeaderAndSend isL n args rest
          (step.1,
            ((List.range n).map (fun i => (i, args)) ++ step.2.1,
              step.2.2)) := rfl

theorem checkLeaderAndSend_trace {R A : Type} (isL : R → Bool) (n : Nat)
    (args : A) (rounds : List (List (Nat × R))) :
    ∀ p ∈ (checkLeaderAndSend isL n args rounds).2.1, p.2 = args := by
  induction rounds with
  | nil =>
    intro p hp
    simp [checkLeaderAndSend] at hp
  | cons round rest ih =>
    intro p hp
    obtain ⟨pi, pa⟩ := p
    cases hfind : round.find? (fun q => isL q.2) with
    | some q =>
      simp [checkLeaderAndSend_cons, hfind] at hp
      obtain ⟨i, h⟩ := hp
      exact h.2.2.symm
    | none =>
      simp only [checkLeaderAndSend_cons, hfind, List.mem_append] at hp
      rcases hp with hp | hp
      · simp at hp
        obtain ⟨i, h⟩ := hp
        exact h.2.2.symm
      · exact ih (pi, pa) hp

theorem clerkRequest_trace {R A : Type} (isL : R → Bool)
    (leader : Option Nat) (n : Nat) (args : A) (it : ClerkIter R) :
    ∀ p ∈ (clerkRequest isL leader n args it).2.1, p.2 = args := by
  intro p hp
  unfold clerkRequest at hp
  cases htry : trySendToLeader isL leader args it.attempt with
  | mk ld pr =>
    obtain ⟨tr, res⟩ := pr
    rw [htry] at hp
    cases res with
    | some msg =>
      simp at hp
      exact trySendToLeader_trace isL leader args it.attempt p
        (by rw [htry]; exact hp)
    | none =>
      simp only [List.mem_append] at hp
      rcases hp with hp | hp
      · exact trySendToLeader_trace isL leader args it.attempt p
          (by rw [htry]; exact hp)
      · exact checkLeaderAndSend_trace isL n args it.rounds p hp

theorem clerkLoop_cons {R A : Type} (isL success : R → Bool) (n : Nat)
    (args : A) (leader : Option Nat) (it : ClerkIter R)
    (rest : List (ClerkIter R)) :
    clerkLoop isL success n args leader (it :: rest) =
      let step := clerkRequest isL leader n args it
      match step.2.2 with
      | some msg =>
        if success msg then (step.2.1, some msg)
        else
          let q := clerkLoop isL success n args step.1 rest
          (step.2.1 ++ q.1, q.2)
      | none =>
        let q := clerkLoop isL success n args step.1 rest
        (step.2.1 ++ q.1, q.2) := rfl

theorem clerkLoop_trace {R A : Type} (isL success : R → Bool) (n : Nat)
    (args : A) (leader : Option Nat) (its : List (ClerkIter R)) :
    ∀ p ∈ (clerkLoop isL success n args leader its).1, p.2 = args := by
  induction its generalizing leader with
  | nil =>
    intro p hp
    simp [clerkLoop] at hp
  | cons it rest ih =>
    intro p hp
    rw [clerkLoop_cons] at hp
    cases hres : (clerkRequest isL leader n args it).2.2 with
    | some msg =>
      by_cases hs : success msg
      · simp only [hres, hs, if_true] at hp
        exact clerkRequest_trace isL leader n args it p hp
      · simp only [hres, hs, if_false] at hp
        rcases List.mem_append.mp hp with hp | hp
        · exact clerkRequest_trace isL leader n args it p hp
        · exact ih _ p hp
    | none =>
      simp only [hres] at hp
      rcases List.mem_append.mp hp with hp | hp
      · exact clerkRequest_trace isL leader n args it p hp
      · exact ih _ p hp

/-- C8: request-id stability across retries: for one logical `get` or
`put_append` call, every RPC attempt the retry loop makes — to the
cached leader or during any round of parallel leader discovery — sends
the identical request struct built once before the loop; in particular
the request id of every attempt is the single uuid drawn for the call. -/
theorem c8_request_id_stable :
    (∀ (name key : String) (u : Uuid) (n : Nat) (leader : Option Nat)
        (its : List (ClerkIter (RpcResult GetReply)))
        (p : Nat × GetRequest),
        p ∈ (clerkGet name key u n leader its).1 →
        p.2 = GetRequest.mk u key name) ∧
    (∀ (op : ClientOp) (name : String) (u : Uuid) (n : Nat)
        (leader : Option Nat)
        (its : List (ClerkIter (RpcResult PutAppendReply)))
        (p : Nat × PutAppendRequest),
        p ∈ (clerkPutAppend op name u n leader its).1 →
        p.2 = op.into_request u name ∧ p.2.id = u) := by
  constructor
  · intro name key u n leader its p hp
    exact clerkLoop_trace _ _ _ _ _ _ p hp
  · intro op name u n leader its p hp
    have h := clerkLoop_trace _ _ _ _ _ _ p hp
    refine ⟨h, ?_⟩
    rw [h]
    cases op <;> rfl

/-- C8 witness: with one cached-leader attempt answered successfully, the
single request sent is exactly the one built before the loop. -/
theorem c8_witness :
    Prod.snd ((0, GetRequest.mk 0 "k" "c") : Nat × GetRequest) =
      GetRequest.mk 0 "k" "c" ∧
    (Prod.snd ((0, PutAppendRequest.mk 0 "k" "v" 1 "c") :
        Nat × PutAppendRequest) =
      (ClientOp.putOp "k" "v").into_request 0 "c" ∧
    (Prod.snd ((0, PutAppendRequest.mk 0 "k" "v" 1 "c") :
        Nat × PutAppendRequest)).id = 0) :=
  ⟨c8_request_id_stable.1 "c" "k" 0 1 (some 0)
      [ClerkIter.mk (some (RpcResult.ok (GetReply.mk false "" "v" 0))) []]
      (0, GetRequest.mk 0 "k" "c") (by decide),
   c8_request_id_stable.2 (ClientOp.putOp "k" "v") "c" 0 1 (some 0)
      [ClerkIter.mk (some (RpcResult.ok (PutAppendReply.mk false "" 0))) []]
      (0, PutAppendRequest.mk 0 "k" "v" 1 "c") (by decide)⟩

end KvRaft
